import Mathlib

/-!
# Verification of the PHOS Filter/Query Transform Engine

A shallow embedding, in Lean 4, of the core of the PHOS repository:

* the JavaScript value domain used by the in-memory data provider
  (`src/providers/NativeArrayProvider.js`),
* the native query executor (filter / sort / paginate),
* schema inference,
* the SQL translator of `src/providers/DuckDBWasmProvider.js`
  (identifier validation, value escaping, WHERE / ORDER BY generation),
* the Transform Builder of `src/core/SpecManager.js` (`toTransformState`),
* the filter-expression parser and serializer of the `FilterSearch`
  component.

JavaScript numbers are modelled by `Int`: every behaviour proved here is
about the integer fragment of the number domain (no NaN-valued *data*;
NaN arising from string coercion is modelled by `Option Int` with `none`
playing the role of NaN).  Dates as objects are outside the modelled value
domain (the providers load JSON/CSV data, which contains none).
-/

namespace Phos

/-- The JavaScript value domain as stored in loaded records and filter
values: `null`, `undefined`, booleans, (integer) numbers, strings and
arrays. -/
inductive JSValue where
  | null
  | undefined
  | bool (b : Bool)
  | num (n : Int)
  | str (s : String)
  | arr (l : List JSValue)

/-- JavaScript loose `value == null`, true exactly for `null` and
`undefined`. -/
def isNullish : JSValue → Bool
  | .null => true
  | .undefined => true
  | _ => false

/-- JavaScript strict equality `===` on the modelled domain.  Arrays are
objects compared by reference; two separately constructed arrays are never
identical, so array operands compare unequal. -/
def jsStrictEq : JSValue → JSValue → Bool
  | .null, .null => true
  | .undefined, .undefined => true
  | .bool a, .bool b => a == b
  | .num a, .num b => a == b
  | .str a, .str b => a == b
  | _, _ => false

/-- `Array.prototype.includes` (SameValueZero; on the modelled domain this
coincides with strict equality). -/
def jsIncludes (l : List JSValue) (v : JSValue) : Bool :=
  l.any (fun x => jsStrictEq x v)

/-- ASCII whitespace trim (both ends), as `String.prototype.trim` on the
modelled (ASCII) domain. -/
def trimChars (l : List Char) : List Char :=
  ((l.dropWhile Char.isWhitespace).reverse.dropWhile Char.isWhitespace).reverse

/-- `String.prototype.split(sep)` for a one-character separator. -/
def splitOnChar (sep : Char) : List Char -> List (List Char)
  | [] => [[]]
  | c :: rest =>
    let parts := splitOnChar sep rest
    if c = sep then [] :: parts
    else
      match parts with
      | [] => [[c]]
      | p :: ps => (c :: p) :: ps

/-- Double every occurrence of the quote character `q`
(`split(q).join(qq)`). -/
def escapeQuotes (q : Char) : List Char -> List Char
  | [] => []
  | c :: rest =>
    if c = q then q :: q :: escapeQuotes q rest
    else c :: escapeQuotes q rest

/-- `String.prototype.toUpperCase` on the ASCII domain. -/
def asciiUpper (s : String) : String := String.mk (s.data.map Char.toUpper)

/-- `String.prototype.toLowerCase` on the ASCII domain. -/
def asciiLower (s : String) : String := String.mk (s.data.map Char.toLower)

/-- `String.prototype.startsWith`. -/
def strStartsWith (s pre : String) : Bool := pre.data.isPrefixOf s.data

mutual

/-- JavaScript `String(value)` on the modelled domain.  Arrays stringify
via `join(',')`. -/
def jsToString : JSValue → String
  | .null => "null"
  | .undefined => "undefined"
  | .bool b => if b then "true" else "false"
  | .num n => toString n
  | .str s => s
  | .arr l => jsArrToString l
termination_by structural v => v

/-- `Array.prototype.join(',')`: `null` and `undefined` elements render as
the empty string. -/
def jsArrToString : List JSValue → String
  | [] => ""
  | [v] =>
    (match v with
     | .null => ""
     | .undefined => ""
     | w => jsToString w)
  | v :: rest =>
    (match v with
     | .null => ""
     | .undefined => ""
     | w => jsToString w) ++ "," ++ jsArrToString rest
termination_by structural l => l

end

/-- JavaScript `Number(s)` for a string, restricted to the integer
fragment: surrounding whitespace is trimmed, the empty string is `0`, an
optional sign followed by decimal digits parses, anything else is NaN
(`none`). -/
def parseNumString : String → Option Int := fun s =>
  let t := trimChars s.data
  if t = [] then some 0
  else
    let (sign, digits) :=
      if t.head? = some '-' then ((-1 : Int), t.tail)
      else if t.head? = some '+' then ((1 : Int), t.tail)
      else ((1 : Int), t)
    if digits ≠ [] && digits.all Char.isDigit then
      some (sign * (digits.foldl (fun acc c => acc * 10 + (c.toNat - '0'.toNat)) (0 : Nat) : Nat))
    else none

/-- JavaScript `ToNumber`, with `none` for NaN. -/
def jsToNumber : JSValue → Option Int
  | .num n => some n
  | .bool b => some (if b then 1 else 0)
  | .null => some 0
  | .undefined => none
  | .str s => parseNumString s
  | .arr l => parseNumString (jsToString (.arr l))

/-- The abstract relational comparison `a < b` of JavaScript: both
strings compare lexicographically, otherwise both sides convert to
numbers; `none` models the `undefined` result produced when a NaN is
involved. -/
def jsCmpLt (a b : JSValue) : Option Bool :=
  match a, b with
  | .str s, .str t => some (decide (s.data < t.data))
  | _, _ =>
    match jsToNumber a, jsToNumber b with
    | some x, some y => some (decide (x < y))
    | _, _ => none

/-- JavaScript `a < b` (an `undefined` comparison is `false`). -/
def jsLt (a b : JSValue) : Bool := (jsCmpLt a b).getD false

/-- JavaScript `a > b`, which evaluates the relational comparison
`b < a`. -/
def jsGt (a b : JSValue) : Bool := (jsCmpLt b a).getD false

/-- JavaScript `a >= b`: `!(a < b)`, except an `undefined` comparison is
`false`. -/
def jsGe (a b : JSValue) : Bool :=
  match jsCmpLt a b with
  | none => false
  | some r => !r

/-- JavaScript `a <= b`: `!(b < a)`, except an `undefined` comparison is
`false`. -/
def jsLe (a b : JSValue) : Bool :=
  match jsCmpLt b a with
  | none => false
  | some r => !r

/-- `String.prototype.includes`: is `sub` a contiguous substring of
`s` (a prefix of some tail)? -/
def strContains (s sub : String) : Bool :=
  s.data.tails.any (fun t => sub.data.isPrefixOf t)

/-- A loaded record: an insertion-ordered association list of fields, as
a JavaScript object.  (JavaScript objects have unique keys; lookup takes
the first binding.) -/
def Row : Type := List (String × JSValue)

/-- Property access `row[column]`: `undefined` when the field is
absent. -/
def rowGet (r : Row) (k : String) : JSValue :=
  match r.lookup k with
  | some v => v
  | none => .undefined

/-- `row[column] = value`: overwrite the first binding in place, or append
a new field. -/
def rowSet (r : Row) (k : String) (v : JSValue) : Row :=
  match r with
  | [] => [(k, v)]
  | (k', v') :: rest =>
    if k' = k then (k', v) :: rest else (k', v') :: rowSet rest k v

/-- `Schema` of `NativeArrayProvider`: column list (name, type), plus
`types`, `hierarchy` (column to delimiter) and `aliases` maps, all
insertion-ordered. -/
structure Schema where
  columns : List (String × String)
  types : List (String × String)
  hierarchy : List (String × String)
  aliases : List (String × String)
deriving Repr, DecidableEq

/-- A canonical filter as consumed by the executors: the optional
`columns` list drives the multi-column full-text OR branch of
`matchesFilters`. -/
structure CanonicalFilter where
  column : String
  operator : String
  value : JSValue
  mode : Option String
  columns : Option (List String)

/-- A sort rule `{column, direction}`. -/
structure SortRule where
  column : String
  direction : String
deriving Repr, DecidableEq

/-- `{limit, offset}` as carried in a `TransformState`. -/
structure Pagination where
  limit : Int
  offset : Int
deriving Repr, DecidableEq

/-- The backend-agnostic `TransformState` (`pagination` absent, or absent
`limit`, is modelled by `none`: both mean "return all rows"). -/
structure TransformState where
  filters : List CanonicalFilter
  sort : List SortRule
  pagination : Option Pagination

/-- `QueryResult` returned by `query`. -/
structure QueryResult where
  data : List Row
  totalCount : Nat
  schema : Schema

/-- `NativeArrayProvider.checkCondition`, the per-record predicate of one
filter.  The `switch` on the operator is rendered as a first-match
if-chain; the `default` branch is permissive `true`. -/
def checkCondition (value : JSValue) (operator : String) (filterValue : JSValue) : Bool :=
  if operator = "=" then
    match value with
    | .arr l => jsIncludes l filterValue
    | _ => jsStrictEq value filterValue
  else if operator = "!=" then
    match value with
    | .arr l => !(jsIncludes l filterValue)
    | _ => !(jsStrictEq value filterValue)
  else if operator = ">" then jsGt value filterValue
  else if operator = "<" then jsLt value filterValue
  else if operator = ">=" then jsGe value filterValue
  else if operator = "<=" then jsLe value filterValue
  else if operator = "LIKE" then strContains (jsToString value) (jsToString filterValue)
  else if operator = "ILIKE" then
    strContains (asciiLower (jsToString value)) (asciiLower (jsToString filterValue))
  else if operator = "IN" then
    match filterValue with
    | .arr fl => jsIncludes fl value
    | _ => false
  else if operator = "in" then
    match value, filterValue with
    | .arr l, .arr fl => fl.any (fun fv => jsIncludes l fv)
    | _, .arr fl => jsIncludes fl value
    | _, _ => false
  else if operator = "in_all" then
    match value, filterValue with
    | .arr l, .arr fl => fl.all (fun fv => jsIncludes l fv)
    | _, .arr fl =>
      let rowValues := (splitOnChar ',' (jsToString value).data).map
        (fun part => String.mk (trimChars part))
      fl.all (fun fv =>
        match fv with
        | .str s => rowValues.contains s
        | _ => false)
    | _, _ => false
  else if operator = "BETWEEN" then
    match filterValue with
    | .arr fl => jsGe value (fl.getD 0 .undefined) && jsLe value (fl.getD 1 .undefined)
    | _ => false
  else if operator = "IS NULL" then isNullish value
  else if operator = "IS NOT NULL" then !(isNullish value)
  else true

/-- `NativeArrayProvider.matchesFilters`: conjunction over the filters; a
filter carrying a (truthy) `columns` array is an OR across those
columns. -/
def matchesFilters (row : Row) (filters : List CanonicalFilter) : Bool :=
  filters.all fun f =>
    match f.columns with
    | some cols => cols.any fun c => checkCondition (rowGet row c) f.operator f.value
    | none => checkCondition (rowGet row f.column) f.operator f.value

/-- The multi-key comparator of `NativeArrayProvider.applySorting`. -/
def compareForSort (sort : List SortRule) (a b : Row) : Int :=
  match sort with
  | [] => 0
  | rule :: rest =>
    let aVal := rowGet a rule.column
    let bVal := rowGet b rule.column
    let comparison : Int := if jsLt aVal bVal then -1 else if jsGt aVal bVal then 1 else 0
    if comparison ≠ 0 then
      if rule.direction = "asc" then comparison else -comparison
    else compareForSort rest a b

/-- `NativeArrayProvider.applySorting`: `Array.prototype.sort` is stable
(ES2019), modelled as a stable merge sort under the comparator. -/
def applySorting (data : List Row) (sort : List SortRule) : List Row :=
  data.mergeSort (fun a b => compareForSort sort a b ≤ 0)

/-- `Array.prototype.slice(start, stop)`: negative indices count from the
end, both indices clamp to `[0, length]`. -/
def jsSlice (l : List Row) (start stop : Int) : List Row :=
  let n : Int := l.length
  let s : Int := if start < 0 then max (n + start) 0 else min start n
  let e : Int := if stop < 0 then max (n + stop) 0 else min stop n
  (l.drop s.toNat).take (e.toNat - s.toNat)

/-- `NativeArrayProvider.query`: filter, sort, measure `totalCount`, then
paginate with `slice(offset, offset + limit)`. -/
def nativeQuery (data : List Row) (schema : Schema) (t : TransformState) : QueryResult :=
  let filtered := if t.filters.length > 0 then data.filter (fun r => matchesFilters r t.filters) else data
  let sorted := if t.sort.length > 0 then applySorting filtered t.sort else filtered
  let totalCount := sorted.length
  let paged :=
    match t.pagination with
    | some pg => jsSlice sorted pg.offset (pg.offset + pg.limit)
    | none => sorted
  ⟨paged, totalCount, schema⟩

/-! ## Native provider mutations (`NativeArrayProvider`) -/

/-- `Array.prototype.join(sep)` over already rendered strings. -/
def joinSep (sep : String) : List String → String
  | [] => ""
  | [x] => x
  | x :: rest => x ++ sep ++ joinSep sep rest

/-- The value-parsing heuristic of `NativeArrayProvider.updateCell`:
`'true'`/`'false'` become booleans; a numeric-looking value becomes a
number when the column's inferred type is `number`. -/
def parseCellValue (schema : Schema) (column : String) (value : JSValue) : JSValue :=
  if jsStrictEq value (.str "true") then .bool true
  else if jsStrictEq value (.str "false") then .bool false
  else if (jsToNumber value).isSome && !jsStrictEq value (.str "") && !jsStrictEq value JSValue.null then
    if schema.types.lookup column = some "number" then
      (jsToNumber value).elim value JSValue.num
    else value
  else value

/-- Replace the first row matching the predicate using the update
function (mutation through the reference returned by `find`). -/
def updateFirst (data : List Row) (p : Row → Bool) (f : Row → Row) : List Row :=
  match data with
  | [] => []
  | r :: rest => if p r then f r :: rest else r :: updateFirst rest p f

/-- `NativeArrayProvider.updateCell`: throws a not-found error when no row
carries the identifier, otherwise writes the parsed value into the row. -/
def updateCell (schema : Schema) (data : List Row) (rowId : JSValue) (column : String)
    (value : JSValue) : Except String (List Row) :=
  let p := fun (r : Row) => jsStrictEq (rowGet r "__rowid") rowId
  match data.find? p with
  | none => .error ("Row with ID " ++ jsToString rowId ++ " not found.")
  | some _ =>
    .ok (updateFirst data p (fun r => rowSet r column (parseCellValue schema column value)))

/-- `NativeArrayProvider.deleteRow`: keeps every row whose `__rowid` is
not strictly equal to the identifier; it never throws. -/
def deleteRow (data : List Row) (rowId : JSValue) : List Row :=
  data.filter (fun r => !jsStrictEq (rowGet r "__rowid") rowId)

/-- `NativeArrayProvider.duplicateRow`: if a row with the identifier
exists, a copy with a fresh `__rowid` (built from the array length and
`Date.now()`, passed here as `now`) is spliced in right after it;
otherwise nothing happens.  It never throws. -/
def duplicateRow (now : Int) (data : List Row) (rowId : JSValue) : List Row :=
  let p := fun (r : Row) => jsStrictEq (rowGet r "__rowid") rowId
  match data.find? p with
  | none => data
  | some row =>
    let newRow := rowSet row "__rowid"
      (.str ("row_" ++ toString data.length ++ "_" ++ toString now))
    let idx := data.findIdx p
    data.take (idx + 1) ++ newRow :: data.drop (idx + 1)

/-! ## Schema inference (`NativeArrayProvider.inferSchema` / `inferType`)

`Date.parse` and `Number` string tests are host-dependent string
predicates; they are passed in as oracles `dateParse` / `numParse`.  The
hierarchy override is independent of them. -/

/-- `NativeArrayProvider.inferType`, with the two string-classification
oracles.  Arrays are objects and fall through to `string`. -/
def inferType (dateParse numParse : String → Bool) : JSValue → String
  | .null => "string"
  | .undefined => "string"
  | .num _ => "number"
  | .bool _ => "boolean"
  | .str s => if dateParse s then "date" else if numParse s then "number" else "string"
  | .arr _ => "string"

/-- Does the value trigger hierarchy detection
(`typeof v === 'string' && v.includes('>')`)? -/
def isHierarchyString : JSValue → Bool
  | .str s => s.data.contains '>'
  | _ => false

/-- The per-key loop body of `inferSchema` over the first sample row:
builds `columns` (primitive type), `types` (overridden to `hierarchy` for
a string containing `>`) and `hierarchy` (delimiter map), skipping
reserved `__`-prefixed keys. -/
def inferColumns (dateParse numParse : String → Bool) :
    List (String × JSValue) → List (String × String) × List (String × String) × List (String × String)
  | [] => ([], [], [])
  | (key, v) :: rest =>
    let (cols, types, hier) := inferColumns dateParse numParse rest
    if strStartsWith key "__" then (cols, types, hier)
    else
      let t := inferType dateParse numParse v
      if isHierarchyString v then
        ((key, t) :: cols, (key, "hierarchy") :: types, (key, ">") :: hier)
      else
        ((key, t) :: cols, (key, t) :: types, hier)

/-- `NativeArrayProvider.inferSchema`: empty data gives the empty schema;
otherwise the first row is the sample. -/
def inferSchema (dateParse numParse : String → Bool) (data : List Row) : Schema :=
  match data with
  | [] => ⟨[], [], [], []⟩
  | sample :: _ =>
    let (cols, types, hier) := inferColumns dateParse numParse sample
    ⟨cols, types, hier, []⟩

/-! ## SQL translator (`DuckDBWasmProvider`) -/

/-- The provider state relevant to SQL generation: table name, loaded
schema, and the validated column set (`null` before `getSchema`). -/
structure DuckState where
  table : String
  schema : Schema
  columnSet : Option (List String)

/-- `DuckDBWasmProvider.quoteIdentifier`: double-quote with doubled
internal quotes. -/
def quoteIdentifier (name : String) : String :=
  "\"" ++ String.mk (escapeQuotes '\"' name.data) ++ "\""

mutual

/-- `DuckDBWasmProvider.escapeValue`: `NULL` for nullish values, raw
numeric and boolean literals, parenthesised lists for arrays, and
single-quoted strings with doubled internal quotes. -/
def escapeValue : JSValue → String
  | .null => "NULL"
  | .undefined => "NULL"
  | .num n => toString n
  | .bool b => if b then "TRUE" else "FALSE"
  | .arr l => "(" ++ joinSep ", " (escapeValueList l) ++ ")"
  | .str s => "'" ++ String.mk (escapeQuotes '\'' s.data) ++ "'"
termination_by structural v => v

/-- `value.map(item => this.escapeValue(item))`. -/
def escapeValueList : List JSValue → List String
  | [] => []
  | v :: rest => escapeValue v :: escapeValueList rest
termination_by structural l => l

end

/-- `DuckDBWasmProvider.assertColumn`: fatal when the schema is not
loaded, rejection when the column is outside the known column set,
otherwise the quoted identifier. -/
def assertColumn (st : DuckState) (columnName : String) : Except String String :=
  match st.columnSet with
  | none => .error "Schema is not loaded; cannot validate columns."
  | some cs =>
    if st.schema.columns.isEmpty then
      .error "Schema is not loaded; cannot validate columns."
    else if !(cs.contains columnName) then
      .error ("Unknown column: " ++ columnName)
    else .ok (quoteIdentifier columnName)

/-- `DuckDBWasmProvider.isListColumn`: the column's SQL type mentions
`list` or `[]`. -/
def isListColumn (st : DuckState) (columnName : String) : Bool :=
  match st.schema.types.lookup columnName with
  | none => false
  | some t =>
    let normalized := asciiLower t
    strContains normalized "list" || strContains normalized "[]"

/-- `DuckDBWasmProvider.buildInAllClause`: per-value `list_contains`
conjunction over a list-typed column; a single equality for a scalar
column with one required value; otherwise the literal `FALSE`. -/
def buildInAllClause (st : DuckState) (columnName : String) (values : JSValue) :
    Except String String := do
  let column ← assertColumn st columnName
  match values with
  | .arr l =>
    if l.isEmpty then pure "FALSE"
    else if isListColumn st columnName then
      pure (joinSep " AND "
        (escapeValueList l |>.map (fun v => "list_contains(" ++ column ++ ", " ++ v ++ ")")))
    else if l.length = 1 then
      pure (column ++ " = " ++ escapeValue (l.getD 0 .undefined))
    else pure "FALSE"
  | _ => pure "FALSE"

/-- One clause of `DuckDBWasmProvider.buildWhereClause`: the `switch` on
the upper-cased operator, rendered as a first-match if-chain.  Note the
source's `case 'ILIKE':` falls through into `case 'IN':`. -/
def buildFilterClause (st : DuckState) (filter : CanonicalFilter) : Except String String := do
  let operator := asciiUpper (if filter.operator = "" then "=" else filter.operator)
  let column ← assertColumn st filter.column
  let value := escapeValue filter.value
  if operator = "=" || operator = "!=" || operator = ">" || operator = "<"
      || operator = ">=" || operator = "<=" then
    pure (column ++ " " ++ operator ++ " " ++ value)
  else if operator = "LIKE" then
    pure (column ++ " LIKE " ++ value)
  else if operator = "ILIKE" || operator = "IN" then
    match filter.value with
    | .arr l =>
      if l.isEmpty then pure "FALSE"
      else pure (column ++ " IN (" ++ joinSep ", " (escapeValueList l) ++ ")")
    | _ => pure (column ++ " = " ++ value)
  else if operator = "IN_ALL" then
    buildInAllClause st filter.column filter.value
  else if operator = "BETWEEN" then
    match filter.value with
    | .arr l =>
      if 2 ≤ l.length then
        pure (column ++ " BETWEEN " ++ escapeValue (l.getD 0 .undefined)
          ++ " AND " ++ escapeValue (l.getD 1 .undefined))
      else pure "FALSE"
    | _ => pure "FALSE"
  else if operator = "IS NULL" then pure (column ++ " IS NULL")
  else if operator = "IS NOT NULL" then pure (column ++ " IS NOT NULL")
  else pure (column ++ " = " ++ value)

/-- `DuckDBWasmProvider.buildWhereClause`: empty filter list gives no
clause; otherwise the per-filter clauses joined with `AND`.  A column
rejection aborts the whole generation (the JavaScript exception
propagates out of `map`). -/
def buildWhereClause (st : DuckState) (filters : List CanonicalFilter) :
    Except String String :=
  if filters.isEmpty then .ok ""
  else do
    let clauses ← filters.mapM (buildFilterClause st)
    pure ("WHERE " ++ joinSep " AND " clauses)

/-- `DuckDBWasmProvider.buildOrderClause`: validated columns with
normalised `ASC`/`DESC` directions. -/
def buildOrderClause (st : DuckState) (sort : List SortRule) : Except String String :=
  if sort.isEmpty then .ok ""
  else do
    let clauses ← sort.mapM (fun rule => do
      let column ← assertColumn st rule.column
      let direction := if asciiUpper rule.direction = "DESC" then "DESC" else "ASC"
      pure (column ++ " " ++ direction))
    pure ("ORDER BY " ++ joinSep ", " clauses)

/-! ## Transform Builder (`SpecManager.toTransformState`) -/

/-- A raw per-condition filter entry of the spec's filter list. -/
structure FilterEntry where
  column : String
  operator : String
  value : JSValue
  enabled : Bool
  mode : Option String

/-- Append an entry to its column's group, preserving the first-seen
order of columns (the insertion order of a JavaScript `Map`). -/
def insertGroup (groups : List (String × List FilterEntry)) (e : FilterEntry) :
    List (String × List FilterEntry) :=
  match groups with
  | [] => [(e.column, [e])]
  | (c, g) :: rest =>
    if c = e.column then (c, g ++ [e]) :: rest
    else (c, g) :: insertGroup rest e

/-- Group the (already enabled-filtered) entries by column. -/
def groupByColumn (es : List FilterEntry) : List (String × List FilterEntry) :=
  es.foldl insertGroup []

/-- `filters[0].mode || 'ANY'`: absent or falsy (empty) mode defaults to
`ANY`. -/
def modeDefault (m : Option String) : String :=
  match m with
  | none => "ANY"
  | some s => if s = "" then "ANY" else s

/-- Collapse one column group: a single entry passes through (no `mode`
key); a larger group becomes one canonical `in`/`in_all` filter whose
value is the list of the group's entry values. -/
def collapseGroup : String × List FilterEntry → CanonicalFilter
  | (_, [f]) => ⟨f.column, f.operator, f.value, none, none⟩
  | (c, fs) =>
    let m := modeDefault (match fs.head? with | some f => f.mode | none => none)
    ⟨c, if m = "ANY" then "in" else "in_all", .arr (fs.map (·.value)), some m, none⟩

/-- The filter part of `SpecManager.toTransformState`: drop disabled
entries, group by column, collapse each group. -/
def toTransformFilters (es : List FilterEntry) : List CanonicalFilter :=
  (groupByColumn (es.filter (·.enabled))).map collapseGroup

/-- `SpecManager.toTransformState`: filters as above, sort passed through
verbatim, pagination only when a page size is provided, clamped to
`page ≥ 1`, `pageSize ≥ 0`, with `offset = (page - 1) * pageSize`.  (The
`Number.isFinite` fallbacks of the source are vacuous on the integer
domain.) -/
def toTransformState (es : List FilterEntry) (sort : List SortRule)
    (page : Int) (pageSize : Option Int) : TransformState :=
  { filters := toTransformFilters es
    sort := sort.map (fun s => ⟨s.column, s.direction⟩)
    pagination :=
      match pageSize with
      | none => none
      | some ps =>
        let safePageSize := max 0 ps
        let safePage := max 1 page
        some ⟨safePageSize, (safePage - 1) * safePageSize⟩ }

/-! ## Expression parser (`FilterSearch.parseExpression` / `serializeBlocks`)

`parseExpression` repeatedly executes the global regex
`(\w+):([^\s]+)|([^\s:]+)` over the input.  The scanner below implements
exactly that exec loop: at each position, the first alternative matches
when a maximal `\w` run is followed by `:` and at least one non-space
character (the value is then the maximal non-space run after the colon);
otherwise the second alternative matches a maximal run of
non-space-non-colon characters; otherwise the position advances by one
character. -/

/-- `\w` of a JavaScript regex (no `u` flag): ASCII letters, digits and
underscore. -/
def isWordChar (c : Char) : Bool :=
  ('a' ≤ c && c ≤ 'z') || ('A' ≤ c && c ≤ 'Z') || ('0' ≤ c && c ≤ '9') || c = '_'

/-- `\s` of a JavaScript regex, restricted to ASCII. -/
def isSpaceChar (c : Char) : Bool :=
  c = ' ' || c = '\t' || c = '\n' || c = '\r' || c = '\x0b' || c = '\x0c'

/-- A character matched by `[^\s:]` (a full-text word character). -/
def fulltextChar (c : Char) : Bool := !isSpaceChar c && c ≠ ':'

/-- A character matched by `[^\s]` (a filter-value character). -/
def valueChar (c : Char) : Bool := !isSpaceChar c

/-- A parsed block: a `key:value` filter or a full-text word, with the raw
matched text. -/
inductive Block where
  | filter (column operator value raw : String)
  | fulltext (value raw : String)
deriving Repr, DecidableEq

/-- The ordered operator alternatives of the sigil regex
`^(>=|<=|!=|=|>|<|~|LIKE|IN)?`. -/
def sigils : List (List Char) :=
  [['>', '='], ['<', '='], ['!', '='], ['='], ['>'], ['<'], ['~'],
   ['L', 'I', 'K', 'E'], ['I', 'N']]

/-- Split an operator sigil off the front of a filter value, trying the
regex alternatives in order (JavaScript alternation is ordered). -/
def extractOp (v : List Char) : Option String × List Char :=
  match sigils.find? (fun sg => sg.isPrefixOf v) with
  | some sg => (some (String.mk sg), v.drop sg.length)
  | none => (none, v)

/-- `FilterSearch.normalizeOperator`. -/
def normalizeOperator (op : String) : String :=
  if op = "=" then "="
  else if op = "==" then "="
  else if op = "!=" then "!="
  else if op = "<>" then "!="
  else if op = ">" then ">"
  else if op = "<" then "<"
  else if op = ">=" then ">="
  else if op = "<=" then "<="
  else if op = "~" then "LIKE"
  else if op = "LIKE" then "LIKE"
  else if op = "IN" then "IN"
  else "="

/-- Build the filter block pushed for a `key:value` match: the operator
sigil is split off the value (`operatorMatch[1] || '='`) and
normalised. -/
def mkFilterBlock (w v : List Char) : Block :=
  let (op, rest) := extractOp v
  Block.filter (String.mk w) (normalizeOperator (op.getD "="))
    (String.mk rest) (String.mk (w ++ ':' :: v))

/-- Build the full-text block for a second-alternative match starting at
`c`. -/
def fulltextBlock (c : Char) (cs : List Char) : Block :=
  let t := c :: cs.takeWhile fulltextChar
  Block.fulltext (String.mk t) (String.mk t)

/-- The exec loop of `parseExpression` (see the section comment). -/
def scan (l : List Char) : List Block :=
  match l with
  | [] => []
  | c :: cs =>
    if isSpaceChar c || c = ':' then scan cs
    else if isWordChar c then
      match h : cs.dropWhile isWordChar with
      | ':' :: d :: r2 =>
        if isSpaceChar d then
          fulltextBlock c cs :: scan (cs.dropWhile fulltextChar)
        else
          mkFilterBlock (c :: cs.takeWhile isWordChar) (d :: r2.takeWhile valueChar)
            :: scan (r2.dropWhile valueChar)
      | _ => fulltextBlock c cs :: scan (cs.dropWhile fulltextChar)
    else
      fulltextBlock c cs :: scan (cs.dropWhile fulltextChar)
termination_by l.length
decreasing_by
  all_goals simp_wf
  all_goals
    first
    | omega
    | exact Nat.lt_succ_of_le ((List.dropWhile_sublist _).length_le)
    | (have h2 : (List.dropWhile valueChar r2).length ≤ r2.length :=
         (List.dropWhile_sublist _).length_le
       have h1 : (List.dropWhile isWordChar rest).length ≤ rest.length :=
         (List.dropWhile_sublist _).length_le
       rw [h] at h1
       simp at h1
       omega)
    | (have h2 : (List.dropWhile valueChar r2).length ≤ r2.length :=
         (List.dropWhile_sublist _).length_le
       have h1 : (List.dropWhile isWordChar cs).length ≤ cs.length :=
         (List.dropWhile_sublist _).length_le
       rw [h] at h1
       simp at h1
       omega)

/-- `FilterSearch.parseExpression`. -/
def parseExpression (text : String) : List Block :=
  scan text.data

/-- The text emitted for one block by `serializeBlocks`: the `=` operator
is elided, every other operator is printed before the value. -/
def blockText : Block → String
  | .filter column operator value _ =>
    column ++ ":" ++ (if operator = "=" then "" else operator) ++ value
  | .fulltext value _ => value

/-- `FilterSearch.serializeBlocks`: per-block text joined with single
spaces. -/
def serializeBlocks (blocks : List Block) : String :=
  joinSep " " (blocks.map blockText)


/-! ## Scanner equations (proof infrastructure for the parser) -/

theorem wordChar_not_space {c : Char} (h : isWordChar c = true) : isSpaceChar c = false := by
  by_contra hc
  simp only [Bool.not_eq_false] at hc
  have hd : c = ' ' ∨ c = '\t' ∨ c = '\n' ∨ c = '\r' ∨ c = '\x0b' ∨ c = '\x0c' := by
    simpa [isSpaceChar, or_assoc] using hc
  rcases hd with h' | h' | h' | h' | h' | h' <;> subst h' <;> simp [isWordChar] at h

theorem wordChar_not_colon {c : Char} (h : isWordChar c = true) : c ≠ ':' := by
  intro h'
  subst h'
  simp [isWordChar] at h

theorem scan_nil : scan [] = [] := by
  rw [scan]

theorem scan_skip {c : Char} (cs : List Char) (h : (isSpaceChar c || c = ':') = true) :
    scan (c :: cs) = scan cs := by
  rw [scan]
  simp [h]

theorem scan_filter {c d : Char} {cs r2 : List Char}
    (hw : isWordChar c = true) (h : cs.dropWhile isWordChar = ':' :: d :: r2)
    (hd : isSpaceChar d = false) :
    scan (c :: cs) = mkFilterBlock (c :: cs.takeWhile isWordChar) (d :: r2.takeWhile valueChar)
      :: scan (r2.dropWhile valueChar) := by
  have hns : (isSpaceChar c || c = ':') = false := by
    simp [wordChar_not_space hw, wordChar_not_colon hw]
  rw [scan]
  rw [if_neg (by simp [hns]), if_pos hw]
  split
  · rename_i d' r2' heq
    rw [h] at heq
    cases heq
    rw [if_neg (by simp [hd])]
  · rename_i hne
    exact absurd h (hne d r2)

theorem scan_fulltext_nonword {c : Char} {cs : List Char}
    (hns : (isSpaceChar c || c = ':') = false) (hw : isWordChar c = false) :
    scan (c :: cs) = fulltextBlock c cs :: scan (cs.dropWhile fulltextChar) := by
  rw [scan]
  rw [if_neg (by simp [hns]), if_neg (by simp [hw])]

theorem scan_fulltext_word_nomatch {c : Char} {cs : List Char} (hw : isWordChar c = true)
    (hshape : ∀ (d : Char) (r2 : List Char), cs.dropWhile isWordChar ≠ ':' :: d :: r2) :
    scan (c :: cs) = fulltextBlock c cs :: scan (cs.dropWhile fulltextChar) := by
  have hns : (isSpaceChar c || c = ':') = false := by
    simp [wordChar_not_space hw, wordChar_not_colon hw]
  rw [scan]
  rw [if_neg (by simp [hns]), if_pos hw]
  split
  · rename_i d' r2' heq
    exact absurd heq (hshape d' r2')
  · rfl

theorem scan_fulltext_word_space {c d : Char} {cs r2 : List Char} (hw : isWordChar c = true)
    (h : cs.dropWhile isWordChar = ':' :: d :: r2) (hd : isSpaceChar d = true) :
    scan (c :: cs) = fulltextBlock c cs :: scan (cs.dropWhile fulltextChar) := by
  have hns : (isSpaceChar c || c = ':') = false := by
    simp [wordChar_not_space hw, wordChar_not_colon hw]
  rw [scan]
  rw [if_neg (by simp [hns]), if_pos hw]
  split
  · rename_i d' r2' heq
    rw [h] at heq
    cases heq
    rw [if_pos hd]
  · rename_i hne
    exact absurd h (hne d r2)


/-! ## Well-formed expressions and the parse/serialize round trip -/

/-- A well-formed token: nonempty, ASCII, space-free, and either a plain
full-text word (no colon) or of the shape `word:value` where the value's
operator sigil (if any) is re-emitted verbatim by serialization — i.e. it
is neither the elided `=` nor the `~` that normalises to `LIKE`. -/
def wfToken (t : List Char) : Bool :=
  !t.isEmpty && t.all (fun c => decide (c.val < 128) && !isSpaceChar c) &&
  (t.all fulltextChar ||
    (match t.dropWhile isWordChar with
     | ':' :: v =>
       !(t.takeWhile isWordChar).isEmpty && !v.isEmpty &&
         !((extractOp v).1 == some "=") && !((extractOp v).1 == some "~")
     | _ => false))

/-- The single block that `scan` produces for a well-formed token. -/
def tokenBlock (t : List Char) : Block :=
  if t.all fulltextChar then Block.fulltext (String.mk t) (String.mk t)
  else mkFilterBlock (t.takeWhile isWordChar) ((t.dropWhile isWordChar).tail)

/-- Tokens joined by single spaces (the shape emitted by
`serializeBlocks`). -/
def joinTokens : List (List Char) → List Char
  | [] => []
  | [t] => t
  | t :: t2 :: ts => t ++ ' ' :: joinTokens (t2 :: ts)

/-- A well-formed filter expression: a single-space-separated sequence of
well-formed tokens. -/
def WellFormedExpr (x : String) : Prop :=
  ∃ ts : List (List Char), (∀ t ∈ ts, wfToken t = true) ∧ x.data = joinTokens ts

theorem space_not_word {c : Char} (h : isSpaceChar c = true) : isWordChar c = false := by
  by_contra hc
  simp only [Bool.not_eq_false] at hc
  rw [wordChar_not_space hc] at h
  exact Bool.false_ne_true h

theorem takeWhile_append_of_all {p : Char → Bool} {l1 : List Char} (l2 : List Char)
    (h : ∀ a ∈ l1, p a = true) : (l1 ++ l2).takeWhile p = l1 ++ l2.takeWhile p := by
  induction l1 with
  | nil => simp
  | cons a l ih =>
    have h1 := h a (by simp)
    have h2 := ih (fun a ha => h a (by simp [ha]))
    simp [List.takeWhile_cons, h1, h2]

theorem dropWhile_append_of_all {p : Char → Bool} {l1 : List Char} (l2 : List Char)
    (h : ∀ a ∈ l1, p a = true) : (l1 ++ l2).dropWhile p = l2.dropWhile p := by
  induction l1 with
  | nil => simp
  | cons a l ih =>
    have h1 := h a (by simp)
    have h2 := ih (fun a ha => h a (by simp [ha]))
    simp [List.dropWhile_cons, h1, h2]

theorem dropWhile_append_left {p : Char → Bool} {l1 : List Char} (l2 : List Char)
    (h : l1.dropWhile p ≠ []) : (l1 ++ l2).dropWhile p = l1.dropWhile p ++ l2 := by
  induction l1 with
  | nil => simp at h
  | cons a l ih =>
    by_cases hpa : p a = true
    · simp only [List.cons_append, List.dropWhile_cons, hpa, if_true] at h ⊢
      exact ih h
    · have hpa' : p a = false := by simpa using hpa
      simp [List.dropWhile_cons, hpa']

theorem all_takeWhile_self {p : Char → Bool} {l : List Char}
    (h : ∀ a ∈ l, p a = true) : l.takeWhile p = l :=
  List.takeWhile_eq_self_iff.mpr h

theorem all_dropWhile_nil {p : Char → Bool} {l : List Char}
    (h : ∀ a ∈ l, p a = true) : l.dropWhile p = [] :=
  List.dropWhile_eq_nil_iff.mpr h


theorem fulltextChar_parts {c : Char} (h : fulltextChar c = true) :
    isSpaceChar c = false ∧ c ≠ ':' := by
  simp only [fulltextChar, Bool.and_eq_true, Bool.not_eq_true'] at h
  exact ⟨h.1, by simpa using h.2⟩

theorem scan_fulltext_token {c : Char} {t' r : List Char}
    (hcf : fulltextChar c = true) (htf : ∀ a ∈ t', fulltextChar a = true)
    (hr : r = [] ∨ ∃ d r', r = d :: r' ∧ isSpaceChar d = true) :
    scan ((c :: t') ++ r) =
      Block.fulltext (String.mk (c :: t')) (String.mk (c :: t')) :: scan r := by
  obtain ⟨hcsp, hcco⟩ := fulltextChar_parts hcf
  have hns : (isSpaceChar c || c = ':') = false := by simp [hcsp, hcco]
  have hrt : r.takeWhile fulltextChar = [] ∧ r.dropWhile fulltextChar = r := by
    rcases hr with rfl | ⟨d, r', rfl, hd⟩
    · simp
    · constructor <;> simp [List.takeWhile_cons, List.dropWhile_cons, fulltextChar, hd]
  have hstep : scan (c :: (t' ++ r)) =
      fulltextBlock c (t' ++ r) :: scan ((t' ++ r).dropWhile fulltextChar) := by
    by_cases hw : isWordChar c = true
    · apply scan_fulltext_word_nomatch hw
      intro d2 r2 hcontra
      cases htd : t'.dropWhile isWordChar with
      | nil =>
        have hall : ∀ a ∈ t', isWordChar a = true := by
          intro a ha
          simpa using List.dropWhile_eq_nil_iff.mp htd a ha
        rw [dropWhile_append_of_all _ hall] at hcontra
        rcases hr with rfl | ⟨d, r', rfl, hd⟩
        · exact List.noConfusion hcontra
        · rw [List.dropWhile_cons, space_not_word hd] at hcontra
          simp only [Bool.false_eq_true, if_false] at hcontra
          obtain ⟨hdc, -⟩ := List.cons.inj hcontra
          subst hdc
          exact absurd hd (by decide)
      | cons a td' =>
        have hane : t'.dropWhile isWordChar ≠ [] := by simp [htd]
        rw [dropWhile_append_left _ hane, htd] at hcontra
        have ham : a ∈ t' := by
          have hsub : List.Sublist (t'.dropWhile isWordChar) t' := List.dropWhile_sublist _
          exact hsub.subset (htd ▸ List.mem_cons_self a td')
        have haf := htf a ham
        simp only [List.cons_append] at hcontra
        have hac : a = ':' := (List.cons.inj hcontra).1
        rw [hac] at haf
        exact absurd (fulltextChar_parts haf).2 (by simp)
    · exact scan_fulltext_nonword hns (by simpa using hw)
  have hres : scan ((c :: t') ++ r) = scan (c :: (t' ++ r)) := by simp
  rw [hres, hstep]
  congr 1
  · simp only [fulltextBlock]
    rw [takeWhile_append_of_all _ htf, hrt.1, List.append_nil]
  · rw [dropWhile_append_of_all _ htf, hrt.2]


theorem scan_token_append {t r : List Char} (hwf : wfToken t = true)
    (hr : r = [] ∨ ∃ d r', r = d :: r' ∧ isSpaceChar d = true) :
    scan (t ++ r) = tokenBlock t :: scan r := by
  have hwf' := hwf
  simp only [wfToken, Bool.and_eq_true, Bool.or_eq_true] at hwf'
  obtain ⟨⟨hne, hchars⟩, hbr⟩ := hwf'
  have hnospace : ∀ a ∈ t, isSpaceChar a = false := by
    intro a ha
    have := List.all_eq_true.mp hchars a ha
    simp only [Bool.and_eq_true, Bool.not_eq_true'] at this
    exact this.2
  by_cases hfull : t.all fulltextChar = true
  · obtain ⟨c, t', rfl⟩ : ∃ c t', t = c :: t' := by
      cases t with
      | nil => simp at hne
      | cons c t' => exact ⟨c, t', rfl⟩
    have h1 : fulltextChar c = true := List.all_eq_true.mp hfull c (by simp)
    have h2 : ∀ a ∈ t', fulltextChar a = true := fun a ha =>
      List.all_eq_true.mp hfull a (by simp [ha])
    have htb : tokenBlock (c :: t') = Block.fulltext (String.mk (c :: t')) (String.mk (c :: t')) := by
      simp [tokenBlock, hfull]
    rw [htb]
    exact scan_fulltext_token h1 h2 hr
  · have hbr' := hbr.resolve_left (by simpa using hfull)
    split at hbr'
    · rename_i v heq
      simp only [Bool.and_eq_true, Bool.not_eq_true'] at hbr'
      have hwne := hbr'.1.1.1
      have hvne := hbr'.1.1.2
      have hop1 := hbr'.1.2
      have hop2 := hbr'.2
      clear hbr'
      obtain ⟨c, w', hw⟩ : ∃ c w', t.takeWhile isWordChar = c :: w' := by
        cases hcase : t.takeWhile isWordChar with
        | nil => rw [hcase] at hwne; simp at hwne
        | cons c w' => exact ⟨c, w', rfl⟩
      obtain ⟨d, v', hv⟩ : ∃ d v', v = d :: v' := by
        cases hcase : v with
        | nil => rw [hcase] at hvne; simp at hvne
        | cons d v' => exact ⟨d, v', rfl⟩
      subst hv
      have htw : (c :: w') ++ ':' :: d :: v' = t := by
        rw [← hw, ← heq]
        exact List.takeWhile_append_dropWhile isWordChar t
      have hwall : ∀ a ∈ (c :: w'), isWordChar a = true := by
        intro a ha
        exact List.mem_takeWhile_imp (hw ▸ ha)
      have hcw : isWordChar c = true := hwall c (by simp)
      have hw'all : ∀ a ∈ w', isWordChar a = true := fun a ha => hwall a (by simp [ha])
      have hd_ns : isSpaceChar d = false := by
        apply hnospace
        rw [← htw]
        simp
      have hv'_ns : ∀ a ∈ v', isSpaceChar a = false := by
        intro a ha
        apply hnospace
        rw [← htw]
        simp [ha]
      have hrval : r.takeWhile valueChar = [] ∧ r.dropWhile valueChar = r := by
        rcases hr with rfl | ⟨d2, r2, rfl, hd2⟩
        · simp
        · constructor <;> simp [List.takeWhile_cons, List.dropWhile_cons, valueChar, hd2]
      have hsplit : t ++ r = c :: (w' ++ ':' :: d :: (v' ++ r)) := by
        rw [← htw]
        simp
      have hcolon : isWordChar ':' = false := by decide
      have hdrop : (w' ++ ':' :: d :: (v' ++ r)).dropWhile isWordChar = ':' :: d :: (v' ++ r) := by
        rw [dropWhile_append_of_all _ hw'all, List.dropWhile_cons, hcolon]
        simp
      have htake : (w' ++ ':' :: d :: (v' ++ r)).takeWhile isWordChar = w' := by
        rw [takeWhile_append_of_all _ hw'all, List.takeWhile_cons, hcolon]
        simp
      have hvtake : (v' ++ r).takeWhile valueChar = v' := by
        rw [takeWhile_append_of_all _ (fun a ha => by simp [valueChar, hv'_ns a ha]),
          hrval.1, List.append_nil]
      have hvdrop : (v' ++ r).dropWhile valueChar = r := by
        rw [dropWhile_append_of_all _ (fun a ha => by simp [valueChar, hv'_ns a ha]), hrval.2]
      rw [hsplit, scan_filter hcw hdrop hd_ns, htake, hvtake, hvdrop]
      congr 1
      rw [tokenBlock, if_neg (by simpa using hfull), hw, heq]
      rfl
    · exact absurd hbr' (by simp)


theorem mk_append_mk (a b : List Char) : String.mk a ++ String.mk b = String.mk (a ++ b) := rfl

theorem scan_joinTokens : ∀ {ts : List (List Char)}, (∀ t ∈ ts, wfToken t = true) →
    scan (joinTokens ts) = ts.map tokenBlock := by
  intro ts
  induction ts with
  | nil => intro _; simp [joinTokens, scan_nil]
  | cons t ts ih =>
    intro h
    cases ts with
    | nil =>
      have hstep := scan_token_append (h t (by simp)) (Or.inl rfl)
      rw [List.append_nil] at hstep
      simpa [joinTokens, scan_nil] using hstep
    | cons t2 ts2 =>
      have hstep := scan_token_append (h t (by simp))
        (Or.inr ⟨' ', joinTokens (t2 :: ts2), rfl, by decide⟩)
      rw [joinTokens, hstep, scan_skip _ (by decide), ih (fun u hu => h u (by simp [hu]))]
      rfl

theorem wfToken_filter_parts {t : List Char} (hwf : wfToken t = true)
    (hfull : ¬ t.all fulltextChar = true) :
    ∃ v, t.dropWhile isWordChar = ':' :: v ∧
      ((extractOp v).1 == some "=") = false ∧ ((extractOp v).1 == some "~") = false := by
  simp only [wfToken, Bool.and_eq_true, Bool.or_eq_true] at hwf
  have hbr' := hwf.2.resolve_left (by simpa using hfull)
  split at hbr'
  · rename_i v heq
    simp only [Bool.and_eq_true, Bool.not_eq_true'] at hbr'
    exact ⟨v, heq, hbr'.1.2, hbr'.2⟩
  · exact absurd hbr' (by simp)

theorem blockText_filter_good (w sg u : List Char)
    (hex : extractOp (sg ++ u) = (some (String.mk sg), u))
    (hnorm : normalizeOperator (String.mk sg) = String.mk sg)
    (hne : ¬ String.mk sg = "=") :
    blockText (mkFilterBlock w (sg ++ u)) = String.mk (w ++ ':' :: (sg ++ u)) := by
  simp only [mkFilterBlock, hex, blockText, Option.getD]
  rw [hnorm, if_neg hne]
  have hflat : String.mk w ++ ":" ++ String.mk sg ++ String.mk u =
      String.mk (((w ++ [':']) ++ sg) ++ u) := rfl
  rw [hflat]
  exact congrArg String.mk (by simp)

theorem blockText_tokenBlock {t : List Char} (hwf : wfToken t = true) :
    blockText (tokenBlock t) = String.mk t := by
  by_cases hfull : t.all fulltextChar = true
  · simp [tokenBlock, hfull, blockText]
  · obtain ⟨v, heq, hop1, hop2⟩ := wfToken_filter_parts hwf hfull
    have htw : t.takeWhile isWordChar ++ ':' :: v = t := by
      rw [← heq]
      exact List.takeWhile_append_dropWhile isWordChar t
    rw [tokenBlock, if_neg (by simpa using hfull), heq, List.tail_cons]
    obtain ⟨w, hwdef⟩ : ∃ w, t.takeWhile isWordChar = w := ⟨_, rfl⟩
    rw [hwdef] at htw ⊢
    rw [← htw]
    cases hfind : sigils.find? (fun sg => sg.isPrefixOf v) with
    | none =>
      have hex : extractOp v = (none, v) := by simp [extractOp, hfind]
      simp only [mkFilterBlock, hex, blockText, Option.getD]
      rw [show normalizeOperator "=" = "=" from rfl, if_pos rfl]
      have hflat : String.mk w ++ ":" ++ "" ++ String.mk v =
          String.mk (((w ++ [':']) ++ []) ++ v) := rfl
      rw [hflat]
      exact congrArg String.mk (by simp)
    | some sg =>
      have hex : extractOp v = (some (String.mk sg), v.drop sg.length) := by
        simp [extractOp, hfind]
      have hpre : sg.isPrefixOf v = true := by simpa using List.find?_some hfind
      have hmem := List.mem_of_find?_eq_some hfind
      obtain ⟨u, hu⟩ : ∃ u, v = sg ++ u := by
        obtain ⟨u, hu⟩ := List.isPrefixOf_iff_prefix.mp hpre
        exact ⟨u, hu.symm⟩
      have hdrop : v.drop sg.length = u := by
        rw [hu]
        exact List.drop_left sg u
      rw [hdrop] at hex
      subst hu
      simp only [sigils, List.mem_cons, List.not_mem_nil, or_false] at hmem
      rcases hmem with h | h | h | h | h | h | h | h | h
      · subst h
        exact blockText_filter_good _ _ _ hex (by decide) (by decide)
      · subst h
        exact blockText_filter_good _ _ _ hex (by decide) (by decide)
      · subst h
        exact blockText_filter_good _ _ _ hex (by decide) (by decide)
      · subst h
        simp only [hex] at hop1
        exact absurd hop1 (by decide)
      · subst h
        exact blockText_filter_good _ _ _ hex (by decide) (by decide)
      · subst h
        exact blockText_filter_good _ _ _ hex (by decide) (by decide)
      · subst h
        simp only [hex] at hop2
        exact absurd hop2 (by decide)
      · subst h
        exact blockText_filter_good _ _ _ hex (by decide) (by decide)
      · subst h
        exact blockText_filter_good _ _ _ hex (by decide) (by decide)


theorem joinSep_map_mk (ts : List (List Char)) :
    joinSep " " (ts.map String.mk) = String.mk (joinTokens ts) := by
  induction ts with
  | nil => rfl
  | cons t ts ih =>
    cases ts with
    | nil => rfl
    | cons t2 ts2 =>
      rw [List.map_cons, joinTokens]
      show String.mk t ++ " " ++ joinSep " " ((t2 :: ts2).map String.mk) =
        String.mk (t ++ ' ' :: joinTokens (t2 :: ts2))
      rw [ih]
      have hflat : String.mk t ++ " " ++ String.mk (joinTokens (t2 :: ts2)) =
          String.mk ((t ++ [' ']) ++ joinTokens (t2 :: ts2)) := rfl
      rw [hflat]
      exact congrArg String.mk (by simp)

theorem serializeBlocks_map_tokenBlock {ts : List (List Char)}
    (h : ∀ t ∈ ts, wfToken t = true) :
    serializeBlocks (ts.map tokenBlock) = String.mk (joinTokens ts) := by
  unfold serializeBlocks
  rw [List.map_map]
  have hmap : ts.map (blockText ∘ tokenBlock) = ts.map String.mk :=
    List.map_congr_left (fun t ht => blockText_tokenBlock (h t ht))
  rw [hmap, joinSep_map_mk]

/-- **C3.**  For every well-formed filter expression `x` without operator
ambiguity (no `=` sigil, which serialization elides, and no `~` sigil,
which normalises to `LIKE`), `serializeBlocks (parseExpression x) = x`;
and serialization always elides the `=` operator, emitting `key:value`,
never `key:=value`. -/
theorem c3_serialize_parse_roundtrip :
    (∀ x : String, WellFormedExpr x → serializeBlocks (parseExpression x) = x) ∧
    (∀ column value raw : String,
      serializeBlocks [Block.filter column "=" value raw] = column ++ ":" ++ value) := by
  constructor
  · rintro x ⟨ts, hwf, hx⟩
    have hmk : String.mk x.data = x := by cases x; rfl
    rw [parseExpression, hx, scan_joinTokens hwf, serializeBlocks_map_tokenBlock hwf, ← hx, hmk]
  · intro column value raw
    show blockText (Block.filter column "=" value raw) = column ++ ":" ++ value
    simp [blockText]

/-- Witness for C3 at the concrete expression
`"name:Alice salary:>=50000 hello"`. -/
theorem c3_roundtrip_witness :
    WellFormedExpr "name:Alice salary:>=50000 hello" ∧
    serializeBlocks (parseExpression "name:Alice salary:>=50000 hello") =
      "name:Alice salary:>=50000 hello" := by
  have hwf : WellFormedExpr "name:Alice salary:>=50000 hello" := by
    refine ⟨[['n','a','m','e',':','A','l','i','c','e'],
      ['s','a','l','a','r','y',':','>','=','5','0','0','0','0'],
      ['h','e','l','l','o']], by decide, by decide⟩
  exact ⟨hwf, c3_serialize_parse_roundtrip.1 _ hwf⟩


/-! ## Concrete states used by the closed theorems -/

/-- The empty schema (native executor passes its schema through
unchanged, so its content is irrelevant to filtering claims). -/
def emptySchema : Schema := ⟨[], [], [], []⟩

/-- An SQL provider state whose table holds two scalar `VARCHAR` columns
`tags` and `name`, with the column set loaded. -/
def demoDuck : DuckState :=
  ⟨"data",
   ⟨[("tags", "VARCHAR"), ("name", "VARCHAR")],
    [("tags", "VARCHAR"), ("name", "VARCHAR")], [], []⟩,
   some ["tags", "name"]⟩

/-- A record whose scalar `tags` field holds the comma-separated string
`"a, b"`. -/
def c1Row : Row := [("__rowid", JSValue.str "r0"), ("tags", JSValue.str "a, b")]

/-- The canonical `in_all` transform over `tags` requiring both `a` and
`b`. -/
def c1Transform : TransformState :=
  ⟨[⟨"tags", "in_all", .arr [.str "a", .str "b"], some "ALL", none⟩], [], none⟩

/-- **C1.**  The two executors disagree on the same `TransformState`: for
an `in_all` filter with two required values against a scalar column, the
native executor comma-splits the scalar and keeps the row
(`totalCount = 1`), while the SQL translator emits the unsatisfiable
literal `WHERE FALSE`, under which both the data query and the
`COUNT(*)` query return nothing (`totalCount = 0`). -/
theorem c1_executor_divergence :
    (nativeQuery [c1Row] emptySchema c1Transform).data = [c1Row] ∧
    (nativeQuery [c1Row] emptySchema c1Transform).totalCount = 1 ∧
    buildWhereClause demoDuck c1Transform.filters = .ok "WHERE FALSE" :=
  ⟨rfl, rfl, rfl⟩

/-- **C4.**  In `buildWhereClause` the `case 'ILIKE':` label falls through
into the `IN` branch: an `ILIKE` filter over a scalar value generates an
equality comparison, never SQL `ILIKE` (the `LIKE` half of the mapping is
correct). -/
theorem c4_ilike_falls_through :
    buildWhereClause demoDuck [⟨"name", "ILIKE", .str "abc", none, none⟩] =
      .ok "WHERE \"name\" = 'abc'" ∧
    buildWhereClause demoDuck [⟨"name", "ILIKE", .str "abc", none, none⟩] ≠
      .ok "WHERE \"name\" ILIKE 'abc'" ∧
    buildWhereClause demoDuck [⟨"name", "LIKE", .str "abc", none, none⟩] =
      .ok "WHERE \"name\" LIKE 'abc'" := by
  refine ⟨rfl, ?_, rfl⟩
  intro hcontra
  rw [show buildWhereClause demoDuck [⟨"name", "ILIKE", .str "abc", none, none⟩] =
    .ok "WHERE \"name\" = 'abc'" from rfl] at hcontra
  simp at hcontra

/-- **C10.**  The native `=` / `!=` predicates on scalar fields use strict
equality with no type coercion: a numeric field never equals the decimal
string of its value, so (since `parseExpression` produces string values)
text-entered equality filters never match numeric fields. -/
theorem c10_strict_equality_no_coercion :
    (∀ n : Int, checkCondition (.num n) "=" (.str (toString n)) = false ∧
      checkCondition (.num n) "!=" (.str (toString n)) = true) ∧
    (∀ (text column value raw : String) (n : Int),
      Block.filter column "=" value raw ∈ parseExpression text →
      checkCondition (.num n) "=" (.str value) = false) := by
  constructor
  · intro n
    exact ⟨rfl, rfl⟩
  · intro _ _ value _ n _
    rfl

/-- Witness for C10: `"age:30"` parses to an `=` filter with the string
value `"30"`, which does not match the numeric field value `30`. -/
theorem c10_witness :
    Block.filter "age" "=" "30" "age:30" ∈ parseExpression "age:30" ∧
    checkCondition (.num 30) "=" (.str "30") = false := by
  have hmem : Block.filter "age" "=" "30" "age:30" ∈ parseExpression "age:30" := by
    have hstep := scan_token_append (t := ['a', 'g', 'e', ':', '3', '0']) (r := [])
      (by decide) (Or.inl rfl)
    rw [List.append_nil] at hstep
    rw [parseExpression, show "age:30".data = ['a', 'g', 'e', ':', '3', '0'] from rfl, hstep,
      scan_nil]
    rw [show tokenBlock ['a', 'g', 'e', ':', '3', '0'] =
      Block.filter "age" "=" "30" "age:30" from rfl]
    exact List.mem_singleton_self _
  exact ⟨hmem, c10_strict_equality_no_coercion.2 "age:30" "age" "30" "age:30" 30 hmem⟩


/-- The operator strings recognised by `checkCondition`'s `switch`. -/
def recognizedOperators : List String :=
  ["=", "!=", ">", "<", ">=", "<=", "LIKE", "ILIKE", "IN", "in", "in_all",
   "BETWEEN", "IS NULL", "IS NOT NULL"]

/-- **C6.**  An unrecognised operator makes the per-record predicate
permissively `true`, so a query carrying such a filter never throws (the
model is total) and returns the full record set with its count — a
defined `QueryResult`. -/
theorem c6_unknown_operator_permissive
    (data : List Row) (schema : Schema) (column : String) (v fv : JSValue) (op : String)
    (h : op ∉ recognizedOperators) :
    checkCondition v op fv = true ∧
    nativeQuery data schema ⟨[⟨column, op, fv, none, none⟩], [], none⟩ =
      ⟨data, data.length, schema⟩ := by
  simp only [recognizedOperators, List.mem_cons, not_or, List.not_mem_nil] at h
  obtain ⟨h1, h2, h3, h4, h5, h6, h7, h8, h9, h10, h11, h12, h13, h14, -⟩ := h
  have hcc : ∀ w fw, checkCondition w op fw = true := by
    intro w fw
    simp only [checkCondition, if_neg h1, if_neg h2, if_neg h3, if_neg h4, if_neg h5,
      if_neg h6, if_neg h7, if_neg h8, if_neg h9, if_neg h10, if_neg h11, if_neg h12,
      if_neg h13, if_neg h14]
  refine ⟨hcc v fv, ?_⟩
  have hfilter : data.filter
      (fun r => matchesFilters r [⟨column, op, fv, none, none⟩]) = data := by
    apply List.filter_eq_self.mpr
    intro r _
    simp [matchesFilters, hcc]
  simp [nativeQuery, hfilter]

/-- Witness for C6 at the operator `INVALID_OP`. -/
theorem c6_witness :
    "INVALID_OP" ∉ recognizedOperators ∧
    checkCondition (.str "x") "INVALID_OP" (.str "y") = true ∧
    nativeQuery [[("a", JSValue.num 1)]] emptySchema
        ⟨[⟨"a", "INVALID_OP", .str "y", none, none⟩], [], none⟩ =
      ⟨[[("a", JSValue.num 1)]], 1, emptySchema⟩ := by
  have h : "INVALID_OP" ∉ recognizedOperators := by decide
  obtain ⟨h1, h2⟩ := c6_unknown_operator_permissive [[("a", JSValue.num 1)]] emptySchema "a"
    (.str "x") (.str "y") "INVALID_OP" h
  exact ⟨h, h1, h2⟩

/-- **C9.**  Schema inference classifies a column whose first-row value is
a string containing `>` as `hierarchy` with delimiter `>`, in both the
`types` map and the `hierarchy` map, overriding the primitive
classification (the statement holds for every date/number oracle). -/
theorem c9_hierarchy_override
    (dateParse numParse : String → Bool) (r : Row) (rest : List Row) (column s : String)
    (hlk : List.lookup column r = some (.str s))
    (hres : strStartsWith column "__" = false)
    (hgt : s.data.contains '>' = true) :
    List.lookup column (inferSchema dateParse numParse (r :: rest)).types = some "hierarchy" ∧
    List.lookup column (inferSchema dateParse numParse (r :: rest)).hierarchy = some ">" := by
  have main : ∀ entries : List (String × JSValue),
      List.lookup column entries = some (JSValue.str s) →
      List.lookup column (inferColumns dateParse numParse entries).2.1 = some "hierarchy" ∧
      List.lookup column (inferColumns dateParse numParse entries).2.2 = some ">" := by
    intro entries
    induction entries with
    | nil => intro hcontra; simp [List.lookup] at hcontra
    | cons kv tail ih =>
      intro hlk2
      obtain ⟨k, v⟩ := kv
      by_cases hk : (column == k) = true
      · have hkcol : column = k := by simpa using hk
        subst hkcol
        have hv : v = JSValue.str s := by
          simp [List.lookup] at hlk2
          exact hlk2
        subst hv
        have hh : isHierarchyString (JSValue.str s) = true := hgt
        rcases hic : inferColumns dateParse numParse tail with ⟨cols, types, hier⟩
        simp only [inferColumns, hic, hres, hh, Bool.false_eq_true, if_false, if_true]
        constructor <;> simp [List.lookup]
      · have hkf : (column == k) = false := by simpa using hk
        have hlk3 : List.lookup column tail = some (JSValue.str s) := by
          simp only [List.lookup, hkf] at hlk2
          exact hlk2
        obtain ⟨ih1, ih2⟩ := ih hlk3
        rcases hic : inferColumns dateParse numParse tail with ⟨cols, types, hier⟩
        rw [hic] at ih1 ih2
        by_cases hskip : strStartsWith k "__" = true
        · simp only [inferColumns, hic, hskip, if_true]
          exact ⟨ih1, ih2⟩
        · by_cases hh : isHierarchyString v = true
          · simp only [inferColumns, hic, hskip, hh, Bool.false_eq_true, if_false, if_true]
            constructor <;> simp only [List.lookup, hkf] <;> assumption
          · simp only [inferColumns, hic, hskip, hh, Bool.false_eq_true, if_false]
            constructor
            · simp only [List.lookup, hkf]
              exact ih1
            · exact ih2
  obtain ⟨h1, h2⟩ := main r hlk
  rcases hic : inferColumns dateParse numParse r with ⟨cols, types, hier⟩
  rw [hic] at h1 h2
  simp only [inferSchema, hic]
  exact ⟨h1, h2⟩

/-- Witness for C9: a sample row whose `dept` column holds
`"Engineering > Backend"`. -/
theorem c9_witness :
    (List.lookup "dept" [("dept", JSValue.str "Engineering > Backend")] =
      some (.str "Engineering > Backend")) ∧
    List.lookup "dept" (inferSchema (fun _ => false) (fun _ => false)
      [[("dept", JSValue.str "Engineering > Backend")]]).types = some "hierarchy" ∧
    List.lookup "dept" (inferSchema (fun _ => false) (fun _ => false)
      [[("dept", JSValue.str "Engineering > Backend")]]).hierarchy = some ">" := by
  have h1 : List.lookup "dept" [("dept", JSValue.str "Engineering > Backend")] =
      some (JSValue.str "Engineering > Backend") := by rfl
  obtain ⟨ha, hb⟩ := c9_hierarchy_override (fun _ => false) (fun _ => false)
    [("dept", JSValue.str "Engineering > Backend")] [] "dept" "Engineering > Backend"
    h1 (by decide) (by decide)
  exact ⟨h1, ha, hb⟩

/-- Data for the C5 theorems: a single row with identifier `r0`. -/
def c5Data : List Row := [[("__rowid", JSValue.str "r0"), ("x", JSValue.num 1)]]

/-- **C5 counterexample.**  Deleting or duplicating by an identifier that
matches no row silently leaves the dataset unchanged: neither operation
throws (both are total functions in the model, mirroring that the source
never raises on this path), contrary to the claimed not-found error. -/
theorem c5_delete_duplicate_silent_noop :
    deleteRow c5Data (.str "missing") = c5Data ∧
    duplicateRow 0 c5Data (.str "missing") = c5Data :=
  ⟨rfl, rfl⟩

/-- **C5 (amended).**  For a row identifier matching no row, `updateCell`
throws the not-found error, while `deleteRow` and `duplicateRow` silently
leave the dataset unchanged. -/
theorem c5_mutation_notfound_amended
    (schema : Schema) (data : List Row) (rowId : JSValue) (column : String) (value : JSValue)
    (h : ∀ r ∈ data, jsStrictEq (rowGet r "__rowid") rowId = false) :
    updateCell schema data rowId column value =
      .error ("Row with ID " ++ jsToString rowId ++ " not found.") ∧
    deleteRow data rowId = data ∧
    (∀ now : Int, duplicateRow now data rowId = data) := by
  have hfind : data.find? (fun r => jsStrictEq (rowGet r "__rowid") rowId) = none :=
    List.find?_eq_none.mpr (fun r hr => by simp [h r hr])
  refine ⟨?_, ?_, ?_⟩
  · simp [updateCell, hfind]
  · apply List.filter_eq_self.mpr
    intro r hr
    simp [deleteRow, h r hr]
  · intro now
    simp [duplicateRow, hfind]

/-- Witness for C5 at the identifier `missing` over `c5Data`. -/
theorem c5_witness :
    (∀ r ∈ c5Data, jsStrictEq (rowGet r "__rowid") (.str "missing") = false) ∧
    updateCell emptySchema c5Data (.str "missing") "x" (.num 2) =
      .error "Row with ID missing not found." ∧
    deleteRow c5Data (.str "missing") = c5Data ∧
    duplicateRow 7 c5Data (.str "missing") = c5Data := by
  have h : ∀ r ∈ c5Data, jsStrictEq (rowGet r "__rowid") (.str "missing") = false := by
    decide
  obtain ⟨h1, h2, h3⟩ :=
    c5_mutation_notfound_amended emptySchema c5Data (.str "missing") "x" (.num 2) h
  exact ⟨h, h1, h2, h3 7⟩


theorem mapM_error_of_mem {α β : Type} (g : α → Except String β) :
    ∀ (l : List α) (a : α), a ∈ l → (∃ e, g a = .error e) →
      ∃ e, l.mapM g = .error e := by
  intro l
  induction l with
  | nil => intro a ha _; exact absurd ha (List.not_mem_nil a)
  | cons x xs ih =>
    intro a ha he
    rcases List.mem_cons.mp ha with rfl | hmem
    · obtain ⟨e, hge⟩ := he
      refine ⟨e, ?_⟩
      rw [List.mapM_cons, hge]
      rfl
    · cases hx : g x with
      | error e2 =>
        refine ⟨e2, ?_⟩
        rw [List.mapM_cons, hx]
        rfl
      | ok y =>
        obtain ⟨e3, he3⟩ := ih a hmem he
        refine ⟨e3, ?_⟩
        rw [List.mapM_cons, hx, he3]
        rfl

theorem assertColumn_error {st : DuckState} {cs : List String} {columnName : String}
    (hcs : st.columnSet = some cs) (hnot : columnName ∉ cs) :
    ∃ e, assertColumn st columnName = .error e := by
  simp only [assertColumn, hcs]
  by_cases hempty : st.schema.columns.isEmpty = true
  · exact ⟨_, by rw [if_pos hempty]⟩
  · have hcontains : cs.contains columnName = false := by
      simpa using hnot
    exact ⟨_, by rw [if_neg hempty, if_pos (show (!cs.contains columnName) = true by
      rw [hcontains]; rfl)]⟩

/-- **C7.**  SQL generation rejects by error any filter or sort rule whose
column name is outside the loaded column set, before producing a `WHERE`
or `ORDER BY` clause (the generator returns the rejection instead of a
clause; it never sanitizes and continues). -/
theorem c7_sql_rejects_unknown_columns
    (st : DuckState) (filters : List CanonicalFilter) (sort : List SortRule)
    (cs : List String) (hcs : st.columnSet = some cs) :
    (∀ f ∈ filters, f.column ∉ cs → ∃ e, buildWhereClause st filters = .error e) ∧
    (∀ rule ∈ sort, rule.column ∉ cs → ∃ e, buildOrderClause st sort = .error e) := by
  constructor
  · intro f hf hnot
    have hfe : ∃ e, buildFilterClause st f = .error e := by
      obtain ⟨e, he⟩ := assertColumn_error hcs hnot
      refine ⟨e, ?_⟩
      simp only [buildFilterClause]
      rw [he]
      rfl
    obtain ⟨e, he⟩ := mapM_error_of_mem (buildFilterClause st) filters f hf hfe
    have hne : filters.isEmpty = false := by
      cases filters with
      | nil => exact absurd hf (List.not_mem_nil f)
      | cons _ _ => rfl
    refine ⟨e, ?_⟩
    simp only [buildWhereClause]
    rw [if_neg (by simp [hne]), he]
    rfl
  · intro rule hr hnot
    obtain ⟨e, he⟩ := mapM_error_of_mem
      (fun rule => (do
        let column ← assertColumn st rule.column
        let direction := if asciiUpper rule.direction = "DESC" then "DESC" else "ASC"
        pure (column ++ " " ++ direction) : Except String String))
      sort rule hr
      (by
        obtain ⟨e, he⟩ := assertColumn_error hcs hnot
        refine ⟨e, ?_⟩
        show (do
          let column ← assertColumn st rule.column
          let direction := if asciiUpper rule.direction = "DESC" then "DESC" else "ASC"
          pure (column ++ " " ++ direction) : Except String String) = _
        rw [he]
        rfl)
    have hne : sort.isEmpty = false := by
      cases sort with
      | nil => exact absurd hr (List.not_mem_nil rule)
      | cons _ _ => rfl
    refine ⟨e, ?_⟩
    simp only [buildOrderClause]
    rw [if_neg (by simp [hne]), he]
    rfl

/-- Witness for C7: the column `evil` is outside `demoDuck`'s column set
and is rejected in both clause builders. -/
theorem c7_witness :
    demoDuck.columnSet = some ["tags", "name"] ∧
    ("evil" ∉ (["tags", "name"] : List String)) ∧
    (∃ e, buildWhereClause demoDuck [⟨"evil", "=", .str "x", none, none⟩] = .error e) ∧
    (∃ e, buildOrderClause demoDuck [⟨"evil", "asc"⟩] = .error e) := by
  have h1 : demoDuck.columnSet = some ["tags", "name"] := rfl
  have h2 : "evil" ∉ (["tags", "name"] : List String) := by decide
  obtain ⟨ha, hb⟩ := c7_sql_rejects_unknown_columns demoDuck
    [⟨"evil", "=", .str "x", none, none⟩] [⟨"evil", "asc"⟩] ["tags", "name"] h1
  exact ⟨h1, h2, ha ⟨"evil", "=", .str "x", none, none⟩ (List.mem_singleton_self _) h2,
    hb ⟨"evil", "asc"⟩ (List.mem_singleton_self _) h2⟩

/-- Modelled from the claim's wording (C8): the slice `[offset,
offset+limit)` clamped to the array's bounds. -/
def claimedSlice (l : List Row) (offset limit : Int) : List Row :=
  let n : Int := l.length
  let s := min (max offset 0) n
  let e := min (max (offset + limit) 0) n
  (l.drop s.toNat).take (e.toNat - s.toNat)

/-- Rows for the C8 counterexample. -/
def c8Rows : List Row := [[("a", JSValue.num 1)], [("a", JSValue.num 2)], [("a", JSValue.num 3)]]

/-- **C8 counterexample.**  With a negative offset, `Array.prototype.slice`
indexes from the end of the array instead of clamping to its bounds: for
`offset = -2`, `limit = 3` over three rows the executor returns no rows,
while the claimed clamped slice `[-2, 1) ∩ [0, 3) = [0, 1)` holds the
first row. -/
theorem c8_negative_offset_counterexample :
    (nativeQuery c8Rows emptySchema ⟨[], [], some ⟨3, -2⟩⟩).data = [] ∧
    claimedSlice c8Rows (-2) 3 = [[("a", JSValue.num 1)]] ∧
    (nativeQuery c8Rows emptySchema ⟨[], [], some ⟨3, -2⟩⟩).data ≠
      claimedSlice c8Rows (-2) 3 := by
  refine ⟨rfl, rfl, ?_⟩
  intro hcontra
  rw [show (nativeQuery c8Rows emptySchema ⟨[], [], some ⟨3, -2⟩⟩).data = [] from rfl,
    show claimedSlice c8Rows (-2) 3 = [[("a", JSValue.num 1)]] from rfl] at hcontra
  exact List.noConfusion hcontra

theorem jsSlice_nonneg (l : List Row) (off lim : Int) (hoff : 0 ≤ off) (hlim : 0 ≤ lim) :
    jsSlice l off (off + lim) = (l.drop off.toNat).take lim.toNat := by
  simp only [jsSlice]
  rw [if_neg (by omega), if_neg (by omega)]
  by_cases hc : (l.length : Int) ≤ off
  · have hdrop1 : l.drop off.toNat = [] := by
      apply List.drop_eq_nil_of_le
      omega
    have hmin : min off (l.length : Int) = (l.length : Int) := by omega
    have hdrop2 : l.drop (min off (l.length : Int)).toNat = [] := by
      apply List.drop_eq_nil_of_le
      omega
    rw [hdrop1, hdrop2]
    simp
  · have hs : min off (l.length : Int) = off := by omega
    rw [hs]
    rw [List.take_eq_take]
    simp only [List.length_drop]
    omega

theorem jsSlice_offset_beyond (l : List Row) (off stop : Int)
    (h : l.length ≤ off.toNat) : jsSlice l off stop = [] := by
  simp only [jsSlice]
  by_cases hoff : off < 0
  · have hl : l.length = 0 := by omega
    rw [List.eq_nil_of_length_eq_zero hl]
    simp
  · rw [if_neg hoff]
    have hmin : (min off (l.length : Int)).toNat = l.length := by omega
    rw [hmin, List.drop_length]
    simp

/-- **C8 (amended).**  `totalCount` is the filtered (and sorted) record
count before pagination, unchanged by it; for non-negative `offset` and
`limit` the returned data is the slice `[offset, offset + limit)` of the
unpaginated result, and an offset at or beyond the filtered length yields
empty data (negative offsets instead index from the end, per JavaScript
`slice`). -/
theorem c8_pagination_amended
    (data : List Row) (schema : Schema) (filters : List CanonicalFilter)
    (sort : List SortRule) (lim off : Int) :
    (nativeQuery data schema ⟨filters, sort, some ⟨lim, off⟩⟩).totalCount =
      (nativeQuery data schema ⟨filters, sort, none⟩).data.length ∧
    (nativeQuery data schema ⟨filters, sort, none⟩).totalCount =
      (nativeQuery data schema ⟨filters, sort, none⟩).data.length ∧
    (0 ≤ off → 0 ≤ lim →
      (nativeQuery data schema ⟨filters, sort, some ⟨lim, off⟩⟩).data =
        ((nativeQuery data schema ⟨filters, sort, none⟩).data.drop off.toNat).take lim.toNat) ∧
    ((nativeQuery data schema ⟨filters, sort, none⟩).data.length ≤ off.toNat →
      (nativeQuery data schema ⟨filters, sort, some ⟨lim, off⟩⟩).data = []) := by
  refine ⟨rfl, rfl, ?_, ?_⟩
  · intro hoff hlim
    exact jsSlice_nonneg _ off lim hoff hlim
  · intro hbeyond
    exact jsSlice_offset_beyond _ off (off + lim) hbeyond

/-- Witness for C8: 2 of 5 rows pass the filter; an offset of `999` with
page size `50` yields empty data with `totalCount` still 2. -/
theorem c8_witness :
    (0 : Int) ≤ 999 ∧
    (nativeQuery
        [[("active", JSValue.bool true)], [("active", JSValue.bool false)],
         [("active", JSValue.bool true)], [("active", JSValue.bool false)],
         [("active", JSValue.bool false)]] emptySchema
        ⟨[⟨"active", "=", .bool true, none, none⟩], [], some ⟨50, 999⟩⟩).data = [] ∧
    (nativeQuery
        [[("active", JSValue.bool true)], [("active", JSValue.bool false)],
         [("active", JSValue.bool true)], [("active", JSValue.bool false)],
         [("active", JSValue.bool false)]] emptySchema
        ⟨[⟨"active", "=", .bool true, none, none⟩], [], some ⟨50, 999⟩⟩).totalCount = 2 := by
  have h := c8_pagination_amended
    [[("active", JSValue.bool true)], [("active", JSValue.bool false)],
     [("active", JSValue.bool true)], [("active", JSValue.bool false)],
     [("active", JSValue.bool false)]] emptySchema
    [⟨"active", "=", .bool true, none, none⟩] [] 50 999
  refine ⟨by norm_num, ?_, ?_⟩
  · apply h.2.2.2
    decide
  · rfl


/-! ## Transform Builder grouping lemmas (C2) -/

/-- Look a column's group up in the grouping accumulator. -/
def lookupGroup (c : String) (gs : List (String × List FilterEntry)) :
    Option (List FilterEntry) :=
  (gs.find? (fun p => p.1 == c)).map (fun p => p.2)

theorem lookupGroup_insertGroup (c : String) (gs : List (String × List FilterEntry))
    (e : FilterEntry) :
    lookupGroup c (insertGroup gs e) =
      if e.column = c then some ((lookupGroup c gs).getD [] ++ [e])
      else lookupGroup c gs := by
  induction gs with
  | nil =>
    by_cases hec : e.column = c
    · simp [insertGroup, lookupGroup, List.find?, hec]
    · have hb : (e.column == c) = false := by simpa using hec
      simp [insertGroup, lookupGroup, List.find?, hb, hec]
  | cons q rest ih =>
    obtain ⟨k, g⟩ := q
    simp only [insertGroup]
    by_cases hk : k = e.column
    · rw [if_pos hk]
      by_cases hec : e.column = c
      · have hkc : (k == c) = true := by simp [hk, hec]
        simp [lookupGroup, List.find?, hkc, hec]
      · have hkc : (k == c) = false := by
          simp [hk]
          exact hec
        simp [lookupGroup, List.find?, hkc, hec]
    · rw [if_neg hk]
      by_cases hkc : (k == c) = true
      · have hec : ¬ e.column = c := by
          intro hcontra
          apply hk
          rw [hcontra]
          simpa using hkc
        simp [lookupGroup, List.find?, hkc, hec]
      · have hkc' : (k == c) = false := by simpa using hkc
        simp only [lookupGroup, List.find?, hkc'] at ih ⊢
        exact ih

theorem lookupGroup_foldl (c : String) :
    ∀ (es : List FilterEntry) (gs : List (String × List FilterEntry)),
      lookupGroup c (es.foldl insertGroup gs) =
        match lookupGroup c gs with
        | some g => some (g ++ es.filter (fun e => e.column == c))
        | none =>
          if (es.filter (fun e => e.column == c)).isEmpty then none
          else some (es.filter (fun e => e.column == c)) := by
  intro es
  induction es with
  | nil =>
    intro gs
    cases h : lookupGroup c gs <;> simp [h]
  | cons e es ih =>
    intro gs
    rw [List.foldl_cons, ih (insertGroup gs e), lookupGroup_insertGroup]
    by_cases hec : e.column = c
    · rw [if_pos hec]
      have hfil : (e :: es).filter (fun x => x.column == c) =
          e :: es.filter (fun x => x.column == c) := by
        simp [List.filter_cons, hec]
      cases h : lookupGroup c gs with
      | some g => simp [h, hfil]
      | none => simp [h, hfil]
    · rw [if_neg hec]
      have hfil : (e :: es).filter (fun x => x.column == c) =
          es.filter (fun x => x.column == c) := by
        simp [List.filter_cons, hec]
      rw [hfil]

theorem insertGroup_inv (e : FilterEntry) :
    ∀ gs : List (String × List FilterEntry),
      (∀ p ∈ gs, (∀ x ∈ p.2, x.column = p.1) ∧ p.2 ≠ []) →
      ∀ p ∈ insertGroup gs e, (∀ x ∈ p.2, x.column = p.1) ∧ p.2 ≠ [] := by
  intro gs
  induction gs with
  | nil =>
    intro _ p hp
    simp only [insertGroup, List.mem_singleton] at hp
    subst hp
    refine ⟨?_, by simp⟩
    intro x hx
    simp only [List.mem_singleton] at hx
    subst hx
    rfl
  | cons q rest ih =>
    obtain ⟨k, g⟩ := q
    intro h p hp
    simp only [insertGroup] at hp
    by_cases hk : k = e.column
    · rw [if_pos hk] at hp
      rcases List.mem_cons.mp hp with rfl | hmem
      · obtain ⟨hq1, _⟩ := h (k, g) (by simp)
        refine ⟨?_, by simp⟩
        intro x hx
        rcases List.mem_append.mp hx with hx1 | hx2
        · exact hq1 x hx1
        · simp only [List.mem_singleton] at hx2
          subst hx2
          exact hk.symm
      · exact h _ (by simp [hmem])
    · rw [if_neg hk] at hp
      rcases List.mem_cons.mp hp with rfl | hmem
      · exact h _ (by simp)
      · exact ih (fun p hp => h p (by simp [hp])) p hmem

theorem foldl_insertGroup_inv :
    ∀ (es : List FilterEntry) (gs : List (String × List FilterEntry)),
      (∀ p ∈ gs, (∀ x ∈ p.2, x.column = p.1) ∧ p.2 ≠ []) →
      ∀ p ∈ es.foldl insertGroup gs, (∀ x ∈ p.2, x.column = p.1) ∧ p.2 ≠ [] := by
  intro es
  induction es with
  | nil => intro gs h; exact h
  | cons e es ih =>
    intro gs h
    exact ih (insertGroup gs e) (insertGroup_inv e gs h)

theorem insertGroup_keys (e : FilterEntry) :
    ∀ gs : List (String × List FilterEntry),
      (insertGroup gs e).map Prod.fst =
        if e.column ∈ gs.map Prod.fst then gs.map Prod.fst
        else gs.map Prod.fst ++ [e.column] := by
  intro gs
  induction gs with
  | nil => simp [insertGroup]
  | cons q rest ih =>
    obtain ⟨k, g⟩ := q
    simp only [insertGroup]
    by_cases hk : k = e.column
    · rw [if_pos hk]
      simp [hk]
    · rw [if_neg hk]
      simp only [List.map_cons]
      rw [ih]
      by_cases hmem : e.column ∈ rest.map Prod.fst
      · simp [hmem, Ne.symm hk]
      · simp [hmem, Ne.symm hk]

theorem foldl_keys_nodup :
    ∀ (es : List FilterEntry) (gs : List (String × List FilterEntry)),
      (gs.map Prod.fst).Nodup → ((es.foldl insertGroup gs).map Prod.fst).Nodup := by
  intro es
  induction es with
  | nil => intro gs h; exact h
  | cons e es ih =>
    intro gs h
    apply ih
    rw [insertGroup_keys]
    by_cases hmem : e.column ∈ gs.map Prod.fst
    · simpa [hmem] using h
    · rw [if_neg hmem, ← List.concat_eq_append]
      exact h.concat hmem

theorem lookupGroup_of_mem_nodup {c : String} {g : List FilterEntry}
    {gs : List (String × List FilterEntry)}
    (hnd : (gs.map Prod.fst).Nodup) (hmem : (c, g) ∈ gs) : lookupGroup c gs = some g := by
  induction gs with
  | nil => simp at hmem
  | cons q rest ih =>
    obtain ⟨k, g'⟩ := q
    rcases List.mem_cons.mp hmem with heq | hmem'
    · cases heq
      simp [lookupGroup, List.find?]
    · have hknd := hnd
      simp only [List.map_cons, List.nodup_cons] at hknd
      have hcin : c ∈ rest.map Prod.fst := by
        exact List.mem_map_of_mem Prod.fst hmem'
      have hk : (k == c) = false := by
        simp only [beq_eq_false_iff_ne, ne_eq]
        intro hcontra
        subst hcontra
        exact hknd.1 hcin
      simp only [lookupGroup, List.find?, hk]
      exact ih hknd.2 hmem'

theorem mem_of_lookupGroup {c : String} {g : List FilterEntry}
    {gs : List (String × List FilterEntry)}
    (h : lookupGroup c gs = some g) : (c, g) ∈ gs := by
  simp only [lookupGroup] at h
  cases hf : gs.find? (fun p => p.1 == c) with
  | none => rw [hf] at h; simp at h
  | some p =>
    rw [hf] at h
    obtain ⟨k, g'⟩ := p
    have hp : (k == c) = true := by simpa using List.find?_some hf
    have hm := List.mem_of_find?_eq_some hf
    have hg : g' = g := by simpa using h
    have hk : k = c := by simpa using hp
    subst hg
    subst hk
    exact hm

theorem lookupGroup_mem_keys {c : String} {gs : List (String × List FilterEntry)} :
    (lookupGroup c gs).isSome = true ↔ c ∈ gs.map Prod.fst := by
  constructor
  · intro h
    cases hl : lookupGroup c gs with
    | none => rw [hl] at h; simp at h
    | some g =>
      have := mem_of_lookupGroup hl
      exact List.mem_map_of_mem Prod.fst this
  · intro h
    obtain ⟨p, hp, hpc⟩ := List.mem_map.mp h
    have hf : (gs.find? (fun p => p.1 == c)).isSome = true := by
      rw [List.find?_isSome]
      exact ⟨p, hp, by simp [hpc]⟩
    simp only [lookupGroup]
    cases hx : gs.find? (fun p => p.1 == c) with
    | none => rw [hx] at hf; simp at hf
    | some q => simp


theorem toTransformFilters_eq (es : List FilterEntry) :
    toTransformFilters es =
      (groupByColumn (es.filter (fun e => e.enabled))).map collapseGroup := rfl

theorem collapseGroup_column :
    ∀ (es : List FilterEntry) (p : String × List FilterEntry),
      p ∈ groupByColumn es → (collapseGroup p).column = p.1 := by
  intro es p hp
  obtain ⟨k, g⟩ := p
  obtain ⟨hc1, hne⟩ := foldl_insertGroup_inv es [] (by simp) (k, g) hp
  cases g with
  | nil => exact absurd rfl hne
  | cons x rest =>
    cases rest with
    | nil => simpa [collapseGroup] using hc1 x (by simp)
    | cons y rest2 => simp [collapseGroup]

/-- **C2 (amended).**  The Transform Builder drops disabled entries and
groups the rest by column: the output holds exactly one canonical filter
per enabled column; a group of size 1 passes through with operator and
value unchanged; a group of size ≥ 2 sharing mode `m` (absent defaulting
to `ANY`) collapses to one filter with operator `in` (ANY) or `in_all`
(ALL) and the group's value list.  The output's operator for a column lies
in `{in, in_all}` iff that group's size is ≥ 2 — *provided* a size-1
group's own operator is not already `in`/`in_all` (a single entry passes
any operator through, including those two). -/
theorem c2_transform_builder_grouping (es : List FilterEntry) (c : String) :
    ((toTransformFilters es).countP (fun f => f.column == c) =
      if ((es.filter (fun e => e.enabled)).filter (fun e => e.column == c)).isEmpty
      then 0 else 1) ∧
    (∀ e : FilterEntry, (es.filter (fun e => e.enabled)).filter (fun e => e.column == c) = [e] →
      (⟨e.column, e.operator, e.value, none, none⟩ : CanonicalFilter) ∈ toTransformFilters es) ∧
    (∀ (g : List FilterEntry) (m : Option String),
      (es.filter (fun e => e.enabled)).filter (fun e => e.column == c) = g →
      2 ≤ g.length → (∀ e ∈ g, e.mode = m) →
      (m = none ∨ m = some "ANY" ∨ m = some "ALL") →
      (⟨c, if m = some "ALL" then "in_all" else "in",
        .arr (g.map (fun e => e.value)),
        some (if m = some "ALL" then "ALL" else "ANY"), none⟩ : CanonicalFilter) ∈
        toTransformFilters es) ∧
    ((∀ e : FilterEntry,
        (es.filter (fun e => e.enabled)).filter (fun e => e.column == c) = [e] →
        e.operator ≠ "in" ∧ e.operator ≠ "in_all") →
      ((∃ f ∈ toTransformFilters es, f.column = c ∧
          (f.operator = "in" ∨ f.operator = "in_all")) ↔
        2 ≤ ((es.filter (fun e => e.enabled)).filter (fun e => e.column == c)).length)) := by
  have hgb : groupByColumn (es.filter (fun e => e.enabled)) =
      (es.filter (fun e => e.enabled)).foldl insertGroup [] := rfl
  have hgrp : lookupGroup c (groupByColumn (es.filter (fun e => e.enabled))) =
      if ((es.filter (fun e => e.enabled)).filter (fun e => e.column == c)).isEmpty
      then none
      else some ((es.filter (fun e => e.enabled)).filter (fun e => e.column == c)) := by
    rw [hgb, lookupGroup_foldl c (es.filter (fun e => e.enabled)) []]
    rfl
  have hnd : ((groupByColumn (es.filter (fun e => e.enabled))).map Prod.fst).Nodup := by
    rw [hgb]
    exact foldl_keys_nodup _ [] (by simp)
  refine ⟨?_, ?_, ?_, ?_⟩
  · -- exactly one canonical filter per enabled column
    rw [toTransformFilters_eq, List.countP_map]
    have hpt : (groupByColumn (es.filter (fun e => e.enabled))).countP
          ((fun f => f.column == c) ∘ collapseGroup) =
        (groupByColumn (es.filter (fun e => e.enabled))).countP (fun p => p.1 == c) := by
      apply List.countP_congr
      intro p hp
      simp [Function.comp, collapseGroup_column _ p hp]
    rw [hpt]
    have hcnt : (groupByColumn (es.filter (fun e => e.enabled))).countP (fun p => p.1 == c) =
        ((groupByColumn (es.filter (fun e => e.enabled))).map Prod.fst).count c := by
      rw [List.count, List.countP_map]
      rfl
    rw [hcnt]
    by_cases hempty :
        ((es.filter (fun e => e.enabled)).filter (fun e => e.column == c)).isEmpty = true
    · rw [if_pos hempty]
      apply List.count_eq_zero_of_not_mem
      intro hmem
      have := lookupGroup_mem_keys.mpr hmem
      rw [hgrp, if_pos hempty] at this
      simp at this
    · rw [if_neg hempty]
      apply List.count_eq_one_of_mem hnd
      apply lookupGroup_mem_keys.mp
      rw [hgrp, if_neg hempty]
      rfl
  · -- singleton pass-through
    intro e he
    have hlk : lookupGroup c (groupByColumn (es.filter (fun e => e.enabled))) = some [e] := by
      rw [hgrp, he]
      simp
    have hmem := mem_of_lookupGroup hlk
    have hin := List.mem_map_of_mem collapseGroup hmem
    rw [toTransformFilters_eq]
    exact hin
  · -- group collapse
    intro g m hgf hlen hm hmv
    cases g with
    | nil => simp at hlen
    | cons a g1 =>
    cases g1 with
    | nil => simp at hlen
    | cons b rest =>
    have hlk : lookupGroup c (groupByColumn (es.filter (fun e => e.enabled))) =
        some (a :: b :: rest) := by
      rw [hgrp, hgf]
      simp
    have hmem := mem_of_lookupGroup hlk
    have hin := List.mem_map_of_mem collapseGroup hmem
    rw [toTransformFilters_eq]
    have hma : a.mode = m := hm a (by simp)
    rcases hmv with rfl | rfl | rfl
    · simpa [collapseGroup, modeDefault, hma] using hin
    · simpa [collapseGroup, modeDefault, hma] using hin
    · simpa [collapseGroup, modeDefault, hma] using hin
  · -- the amended iff
    intro hsingle
    constructor
    · rintro ⟨f, hf, hfc, hfop⟩
      rw [toTransformFilters_eq] at hf
      obtain ⟨p, hp, rfl⟩ := List.mem_map.mp hf
      obtain ⟨k, g⟩ := p
      have hk : k = c := by
        have := collapseGroup_column _ (k, g) hp
        rw [this] at hfc
        exact hfc
      subst hk
      have hlk := lookupGroup_of_mem_nodup hnd hp
      rw [hgrp] at hlk
      by_cases hempty :
          ((es.filter (fun e => e.enabled)).filter (fun e => e.column == k)).isEmpty = true
      · rw [if_pos hempty] at hlk
        simp at hlk
      · rw [if_neg hempty] at hlk
        have hge : (es.filter (fun e => e.enabled)).filter (fun e => e.column == k) = g :=
          Option.some.inj hlk
        cases g with
        | nil => rw [hge] at hempty; simp at hempty
        | cons a rest =>
          cases rest with
          | nil =>
            obtain ⟨hop1, hop2⟩ := hsingle a hge
            simp only [collapseGroup] at hfop
            rcases hfop with h1 | h1
            · exact absurd h1 hop1
            · exact absurd h1 hop2
          | cons b rest2 =>
            rw [hge]
            simp
    · intro hlen
      cases hg : (es.filter (fun e => e.enabled)).filter (fun e => e.column == c) with
      | nil => rw [hg] at hlen; simp at hlen
      | cons a g1 =>
      cases g1 with
      | nil => rw [hg] at hlen; simp at hlen
      | cons b rest =>
      have hlk : lookupGroup c (groupByColumn (es.filter (fun e => e.enabled))) =
          some (a :: b :: rest) := by
        rw [hgrp, hg]
        simp
      have hmem := mem_of_lookupGroup hlk
      refine ⟨collapseGroup (c, a :: b :: rest), ?_, ?_, ?_⟩
      · rw [toTransformFilters_eq]
        exact List.mem_map_of_mem collapseGroup hmem
      · simp [collapseGroup]
      · simp only [collapseGroup]
        by_cases hmode : modeDefault a.mode = "ANY"
        · left
          simp [hmode]
        · right
          simp [hmode]


/-- **C2 counterexample.**  A single enabled entry whose own operator is
already `in` passes through unchanged, so the output contains operator
`in` for a column whose group size is 1 — falsifying the claimed
"operator ∈ {in, in_all} iff group size ≥ 2". -/
theorem c2_single_in_entry_counterexample :
    ((([⟨"a", "in", .str "x", true, none⟩] : List FilterEntry).filter
        (fun e => e.enabled)).filter (fun e => e.column == "a")).length = 1 ∧
    ∃ f ∈ toTransformFilters [⟨"a", "in", .str "x", true, none⟩],
      f.column = "a" ∧ (f.operator = "in" ∨ f.operator = "in_all") := by
  refine ⟨rfl, ⟨⟨"a", "in", .str "x", none, none⟩, ?_, rfl, Or.inl rfl⟩⟩
  rw [show toTransformFilters [⟨"a", "in", JSValue.str "x", true, none⟩] =
    [⟨"a", "in", JSValue.str "x", none, none⟩] from rfl]
  exact List.mem_singleton_self _

/-- Entries used by the C2 witness: two enabled `size` conditions in ALL
mode, one enabled `color` condition, one disabled entry. -/
def c2Entries : List FilterEntry :=
  [⟨"size", "=", .str "a", true, some "ALL"⟩,
   ⟨"size", "=", .str "b", true, some "ALL"⟩,
   ⟨"color", "=", .str "red", true, none⟩,
   ⟨"legacy", "=", .str "z", false, none⟩]

/-- Witness for C2 over `c2Entries`. -/
theorem c2_witness :
    (toTransformFilters c2Entries).countP (fun f => f.column == "size") = 1 ∧
    (⟨"color", "=", .str "red", none, none⟩ : CanonicalFilter) ∈ toTransformFilters c2Entries ∧
    (⟨"size", "in_all", .arr [.str "a", .str "b"], some "ALL", none⟩ : CanonicalFilter) ∈
      toTransformFilters c2Entries ∧
    ((∃ f ∈ toTransformFilters c2Entries, f.column = "size" ∧
        (f.operator = "in" ∨ f.operator = "in_all")) ↔
      2 ≤ ((c2Entries.filter (fun e => e.enabled)).filter
        (fun e => e.column == "size")).length) := by
  obtain ⟨h1, -, h3, h4⟩ := c2_transform_builder_grouping c2Entries "size"
  obtain ⟨-, h2c, -, -⟩ := c2_transform_builder_grouping c2Entries "color"
  refine ⟨?_, ?_, ?_, ?_⟩
  · rw [h1, if_neg (by decide)]
  · exact h2c ⟨"color", "=", .str "red", true, none⟩ rfl
  · exact h3 [⟨"size", "=", .str "a", true, some "ALL"⟩,
      ⟨"size", "=", .str "b", true, some "ALL"⟩] (some "ALL") rfl (by decide) (by decide)
      (Or.inr (Or.inr rfl))
  · refine h4 ?_
    intro e he
    have hlen := congrArg List.length he
    rw [show (List.filter (fun e => e.column == "size")
      (List.filter (fun e => e.enabled) c2Entries)).length = 2 from rfl] at hlen
    simp at hlen

end Phos
